import Mathlib

/-!
Verification of the export/registration layer in `src/main/cpp/index.cpp`.

The visible source is the `EMSCRIPTEN_BINDINGS(module)` block, which registers
four native bridge functions under host-visible names:

    emscripten::function("utils_dummy_method", &monero_utils_wasm_bridge::utils_dummy_method);
    emscripten::function("create_wallet_random", &monero_wallet_wasm_bridge::create_wallet_random);
    emscripten::function("create_wallet_dummy", &monero_wallet_wasm_bridge::create_wallet_dummy);
    emscripten::function("dummy_method", &monero_wallet_wasm_bridge::dummy_method);

We embed the export registry as an association list of entries, the
registration pass as the four calls in source order, and the module lifecycle
(uninitialized → ready, lookups and invocations afterwards) as a step
relation on a state type.
-/

/-- The native bridge functions whose addresses are taken in `index.cpp`.
They are declared in `monero_wallet_wasm_bridge.h` and
`monero_utils_wasm_bridge.h` (external collaborators; bodies not in scope). -/
inductive NativeFn where
  | utilsDummyMethod
  | createWalletRandom
  | createWalletDummy
  | dummyMethod
deriving DecidableEq

/-- A native function pointer: either null, or the address of one of the
bridge functions. Every pointer formed by `&...` in the source is non-null. -/
inductive FnPtr where
  | null
  | fn (f : NativeFn)
deriving DecidableEq

/-- An Export Entry of the registry: an exported name bound to a native
function pointer. -/
structure Entry where
  name : String
  fp : FnPtr
deriving DecidableEq

/-- Registration-time defects. -/
inductive RegError where
  | duplicateName (name : String)
deriving DecidableEq

/-- Modelled from the spec: `register(name, function_pointer)` (the
`emscripten::function` machinery itself is not part of the visible source).
A duplicate name fails fast with a defect signal and does not overwrite the
existing entry; otherwise the pair is appended to the registry. -/
def registerExport (name : String) (fp : FnPtr) (reg : List Entry) :
    Except RegError (List Entry) :=
  if reg.any (fun e => e.name == name) then
    .error (.duplicateName name)
  else
    .ok (reg ++ [⟨name, fp⟩])

/-- Run a sequence of registrations, stopping at the first defect. -/
def runRegistrations : List (String × FnPtr) → List Entry →
    Except RegError (List Entry)
  | [], reg => .ok reg
  | (n, f) :: rest, reg =>
    match registerExport n f reg with
    | .error e => .error e
    | .ok reg' => runRegistrations rest reg'

/-- The four registrations of `EMSCRIPTEN_BINDINGS(module)`, in source order
(`index.cpp`, lines 10–13). -/
def moduleBindings : List (String × FnPtr) :=
  [("utils_dummy_method", .fn .utilsDummyMethod),
   ("create_wallet_random", .fn .createWalletRandom),
   ("create_wallet_dummy", .fn .createWalletDummy),
   ("dummy_method", .fn .dummyMethod)]

/-- The module-initialization (registration) pass: run the four registrations
of the source, in order, on a starting registry. The normal run starts from
the empty registry. -/
def initPass (reg : List Entry) : Except RegError (List Entry) :=
  runRegistrations moduleBindings reg

/-- The registry produced by the registration pass from the empty registry. -/
def moduleRegistry : List Entry :=
  [⟨"utils_dummy_method", .fn .utilsDummyMethod⟩,
   ⟨"create_wallet_random", .fn .createWalletRandom⟩,
   ⟨"create_wallet_dummy", .fn .createWalletDummy⟩,
   ⟨"dummy_method", .fn .dummyMethod⟩]

/-- Modelled from the spec: `lookup(name) -> function_pointer`, owned by the
host runtime; `none` is the "not found" signal. -/
def lookupExport (reg : List Entry) (name : String) : Option FnPtr :=
  (reg.find? (fun e => e.name == name)).map Entry.fp

/-- Module lifecycle states: `uninit` before the registration pass runs,
`ready reg` once the pass has produced the registry `reg`. -/
inductive ModState where
  | uninit
  | ready (reg : List Entry)
deriving DecidableEq

/-- The step relation of the module lifecycle. From `uninit` the only
transition is running the registration pass; in `ready` the host may look up
a name or invoke an exported function, neither of which writes the table. -/
inductive Step : ModState → ModState → Prop where
  | runInit (reg : List Entry) :
      initPass [] = .ok reg → Step .uninit (.ready reg)
  | lookupOp (reg : List Entry) (name : String) :
      Step (.ready reg) (.ready reg)
  | invokeOp (reg : List Entry) (f : NativeFn) :
      Step (.ready reg) (.ready reg)

/-- States reachable from the pristine (pre-initialization) state. -/
inductive Reachable : ModState → Prop where
  | start : Reachable .uninit
  | next {s s' : ModState} : Reachable s → Step s s' → Reachable s'

/-- Lookup as seen from a lifecycle state: before initialization no export is
reachable from the host boundary. -/
def lookupState : ModState → String → Option FnPtr
  | .uninit, _ => none
  | .ready reg, n => lookupExport reg n

/-- C1: after module initialization completes, the export registry contains
exactly these four entries and no others: `utils_dummy_method` bound to the
utilities module's function, and `create_wallet_random`,
`create_wallet_dummy`, `dummy_method` bound to the wallet module's
functions. -/
theorem c1_registry_contains_exactly_four_entries :
    initPass [] = .ok
      [⟨"utils_dummy_method", .fn .utilsDummyMethod⟩,
       ⟨"create_wallet_random", .fn .createWalletRandom⟩,
       ⟨"create_wallet_dummy", .fn .createWalletDummy⟩,
       ⟨"dummy_method", .fn .dummyMethod⟩] := by
  rfl

/-- Every reachable lifecycle state is either pristine or holds the registry
built by the registration pass. -/
lemma reachable_cases (s : ModState) (h : Reachable s) :
    s = ModState.uninit ∨ s = ModState.ready moduleRegistry := by
  induction h with
  | start => exact Or.inl rfl
  | next _ hstep ih =>
    cases hstep with
    | runInit reg hinit =>
      have hmr : initPass [] = Except.ok moduleRegistry := rfl
      rw [hmr] at hinit
      injection hinit with h'
      exact Or.inr (by rw [h'])
    | lookupOp reg name => exact ih
    | invokeOp reg f => exact ih

/-- A reachable ready state holds exactly the registry built by the
registration pass. -/
lemma reachable_ready {reg : List Entry} (h : Reachable (.ready reg)) :
    reg = moduleRegistry := by
  rcases reachable_cases _ h with h' | h'
  · exact absurd h' (by simp)
  · injection h'

/-- Modelled from the spec: the declared parameter-type lists of the four
bridge functions. Their declarations live in `monero_wallet_wasm_bridge.h`
and `monero_utils_wasm_bridge.h`, repository headers not present under
`src/`; the spec's contract table declares every export with zero
arguments. -/
def declaredParams : NativeFn → List String
  | .utilsDummyMethod => []
  | .createWalletRandom => []
  | .createWalletDummy => []
  | .dummyMethod => []

/-- A host call with `argCount` positional arguments matches a declared
signature exactly when the counts agree. -/
def callMatches (f : NativeFn) (argCount : Nat) : Bool :=
  argCount == (declaredParams f).length

/-- C2: every one of the four exported functions is declared with arity
zero: each registered entry points at a bridge function whose declared
parameter list is empty, so a zero-argument host call matches its
signature. -/
theorem c2_all_exports_zero_arity (e : Entry) (he : e ∈ moduleRegistry) :
    ∃ f, e.fp = FnPtr.fn f ∧ declaredParams f = [] ∧ callMatches f 0 = true := by
  fin_cases he <;> exact ⟨_, rfl, rfl, rfl⟩

/-- Witness for C2 at the `dummy_method` entry. -/
theorem c2_all_exports_zero_arity_witness :
    (⟨"dummy_method", .fn .dummyMethod⟩ : Entry) ∈ moduleRegistry ∧
    ∃ f, (⟨"dummy_method", .fn .dummyMethod⟩ : Entry).fp = FnPtr.fn f ∧
      declaredParams f = [] ∧ callMatches f 0 = true :=
  ⟨by decide, c2_all_exports_zero_arity _ (by decide)⟩

/-- C3: in every reachable post-initialization state, every entry has a
non-empty name and a non-null function pointer, the name column is exactly
the four declared names, and no two entries share a name. -/
theorem c3_registry_invariant (reg : List Entry)
    (h : Reachable (.ready reg)) :
    (∀ e ∈ reg, e.name ≠ "" ∧ e.fp ≠ FnPtr.null) ∧
    reg.map Entry.name =
      ["utils_dummy_method", "create_wallet_random",
       "create_wallet_dummy", "dummy_method"] ∧
    (reg.map Entry.name).Nodup := by
  rw [reachable_ready h]
  refine ⟨?_, by decide, by decide⟩
  intro e he
  fin_cases he <;> exact ⟨by decide, by decide⟩

/-- Witness for C3 at the state reached by running the registration pass. -/
theorem c3_registry_invariant_witness :
    Reachable (.ready moduleRegistry) ∧
    ((∀ e ∈ moduleRegistry, e.name ≠ "" ∧ e.fp ≠ FnPtr.null) ∧
    moduleRegistry.map Entry.name =
      ["utils_dummy_method", "create_wallet_random",
       "create_wallet_dummy", "dummy_method"] ∧
    (moduleRegistry.map Entry.name).Nodup) :=
  have h : Reachable (.ready moduleRegistry) :=
    Reachable.next Reachable.start (Step.runInit _ rfl)
  ⟨h, c3_registry_invariant _ h⟩

/-- C4: registering a name that is already present in the registry aborts
with a defect signal; the registration never succeeds, so the first entry is
not silently overwritten. -/
theorem c4_duplicate_registration_fails (name : String) (fp : FnPtr)
    (reg : List Entry) (h : name ∈ reg.map Entry.name) :
    registerExport name fp reg = .error (.duplicateName name) ∧
    ∀ reg', registerExport name fp reg ≠ .ok reg' := by
  have hany : reg.any (fun e => e.name == name) = true := by
    rcases List.mem_map.mp h with ⟨e, he, hn⟩
    exact List.any_eq_true.mpr ⟨e, he, by simp [hn]⟩
  refine ⟨by simp [registerExport, hany], ?_⟩
  intro reg' hc
  simp [registerExport, hany] at hc

/-- Witness for C4: a simulated duplicate registration of `dummy_method`
against the post-initialization registry. -/
theorem c4_duplicate_registration_fails_witness :
    "dummy_method" ∈ moduleRegistry.map Entry.name ∧
    (registerExport "dummy_method" (.fn .dummyMethod) moduleRegistry =
      .error (.duplicateName "dummy_method") ∧
    ∀ reg', registerExport "dummy_method" (.fn .dummyMethod) moduleRegistry ≠
      .ok reg') :=
  ⟨by decide, c4_duplicate_registration_fails _ _ _ (by decide)⟩

/-- C5: looking up any name outside the declared export set on the
post-initialization registry returns the "not found" result, never a
function pointer. -/
theorem c5_undeclared_lookup_not_found (name : String)
    (h : name ∉ ["utils_dummy_method", "create_wallet_random",
                 "create_wallet_dummy", "dummy_method"]) :
    lookupExport moduleRegistry name = none := by
  simp only [List.mem_cons, List.not_mem_nil, or_false, not_or] at h
  obtain ⟨h1, h2, h3, h4⟩ := h
  have hfind : moduleRegistry.find? (fun e => e.name == name) = none := by
    rw [List.find?_eq_none]
    intro e he
    fin_cases he <;> simp [beq_iff_eq] <;> intro hc <;>
      first
      | exact h1 hc.symm
      | exact h2 hc.symm
      | exact h3 hc.symm
      | exact h4 hc.symm
  simp [lookupExport, hfind]

/-- Witness for C5 at the undeclared name `create_wallet_from_seed`. -/
theorem c5_undeclared_lookup_not_found_witness :
    "create_wallet_from_seed" ∉
      ["utils_dummy_method", "create_wallet_random",
       "create_wallet_dummy", "dummy_method"] ∧
    lookupExport moduleRegistry "create_wallet_from_seed" = none :=
  ⟨by decide, c5_undeclared_lookup_not_found _ (by decide)⟩

/-- C6: each of the four declared export names resolves to a function
pointer in every state reached after initialization completes, resolves to
nothing in the pristine pre-initialization state, and the only transition
out of the pristine state is the registration pass itself. -/
theorem c6_exports_reachable_only_after_init (name : String)
    (h : name ∈ moduleBindings.map Prod.fst) :
    (∀ reg, Reachable (.ready reg) →
      (lookupState (.ready reg) name).isSome = true) ∧
    lookupState .uninit name = none ∧
    (∀ s', Step .uninit s' → ∃ reg, initPass [] = .ok reg ∧ s' = .ready reg) := by
  refine ⟨?_, rfl, ?_⟩
  · intro reg hr
    rw [reachable_ready hr]
    have h' : name ∈ ["utils_dummy_method", "create_wallet_random",
        "create_wallet_dummy", "dummy_method"] := by
      simpa [moduleBindings] using h
    fin_cases h' <;> decide
  · intro s' hs
    cases hs with
    | runInit reg hinit => exact ⟨reg, hinit, rfl⟩

/-- Witness for C6 at the export name `create_wallet_random`. -/
theorem c6_exports_reachable_only_after_init_witness :
    "create_wallet_random" ∈ moduleBindings.map Prod.fst ∧
    ((∀ reg, Reachable (.ready reg) →
      (lookupState (.ready reg) "create_wallet_random").isSome = true) ∧
    lookupState .uninit "create_wallet_random" = none ∧
    (∀ s', Step .uninit s' →
      ∃ reg, initPass [] = .ok reg ∧ s' = .ready reg)) :=
  ⟨by decide, c6_exports_reachable_only_after_init _ (by decide)⟩

/-- C7: the registry is write-once/read-many: every reachable
post-initialization state carries exactly the table produced by the
registration pass, and no step taken from a ready state (lookup or
invocation) changes it. -/
theorem c7_registry_write_once (reg : List Entry)
    (h : Reachable (.ready reg)) :
    reg = moduleRegistry ∧
    ∀ s', Step (.ready reg) s' → s' = .ready reg := by
  refine ⟨reachable_ready h, ?_⟩
  intro s' hs
  cases hs <;> rfl

/-- Witness for C7 at the state reached by the registration pass. -/
theorem c7_registry_write_once_witness :
    Reachable (.ready moduleRegistry) ∧
    (moduleRegistry = moduleRegistry ∧
    ∀ s', Step (.ready moduleRegistry) s' → s' = .ready moduleRegistry) :=
  have h : Reachable (.ready moduleRegistry) :=
    Reachable.next Reachable.start (Step.runInit _ rfl)
  ⟨h, c7_registry_write_once _ h⟩

/-- Running a list of registrations whose names are pairwise distinct and
disjoint from the accumulated registry succeeds and appends the entries in
order. -/
lemma runRegistrations_ok_of_nodup :
    ∀ (l : List (String × FnPtr)) (acc : List Entry),
      (l.map Prod.fst).Nodup →
      (∀ p ∈ l, p.1 ∉ acc.map Entry.name) →
      runRegistrations l acc = .ok (acc ++ l.map fun p => ⟨p.1, p.2⟩) := by
  intro l
  induction l with
  | nil => intro acc _ _; simp [runRegistrations]
  | cons p rest ih =>
    intro acc hd hdisj
    obtain ⟨n, f⟩ := p
    have hna : acc.any (fun e => e.name == n) = false := by
      rw [List.any_eq_false]
      intro e he
      simp only [beq_iff_eq]
      intro hc
      exact hdisj (n, f) (List.mem_cons_self _ _)
        (List.mem_map.mpr ⟨e, he, hc⟩)
    have hd' : (rest.map Prod.fst).Nodup := by
      simp only [List.map_cons, List.nodup_cons] at hd
      exact hd.2
    have hn_rest : ∀ q ∈ rest, q.1 ≠ n := by
      intro q hq hc
      simp only [List.map_cons, List.nodup_cons] at hd
      exact hd.1 (hc ▸ List.mem_map.mpr ⟨q, hq, rfl⟩)
    have hdisj' : ∀ q ∈ rest,
        q.1 ∉ (acc ++ [Entry.mk n f]).map Entry.name := by
      intro q hq
      simp only [List.map_append, List.mem_append, List.map_cons,
        List.map_nil, List.mem_cons, List.not_mem_nil, or_false, not_or]
      exact ⟨hdisj q (List.mem_cons_of_mem _ hq), hn_rest q hq⟩
    simp only [runRegistrations, registerExport, hna, Bool.false_eq_true,
      if_false]
    rw [ih (acc ++ [Entry.mk n f]) hd' hdisj']
    simp

/-- On registries with pairwise-distinct names, `find?` by name is invariant
under permutation of the entries. -/
lemma find?_eq_of_perm :
    ∀ {l₁ l₂ : List Entry}, l₁.Perm l₂ →
      (l₁.map Entry.name).Nodup → ∀ n : String,
      l₁.find? (fun e => e.name == n) = l₂.find? (fun e => e.name == n) := by
  intro l₁ l₂ h
  induction h with
  | nil => intro _ _; rfl
  | cons x _ ih =>
    intro hn n
    simp only [List.map_cons, List.nodup_cons] at hn
    cases hx : (x.name == n) <;> simp [List.find?, hx, ih hn.2 n]
  | swap x y l =>
    intro hn n
    have hyx : y.name ≠ x.name := by
      simp only [List.map_cons, List.nodup_cons, List.mem_cons] at hn
      exact fun hc => hn.1 (Or.inl hc)
    cases hx : (x.name == n) with
    | false =>
      cases hy : (y.name == n) with
      | false => simp [List.find?, hx, hy]
      | true => simp [List.find?, hx, hy]
    | true =>
      cases hy : (y.name == n) with
      | false => simp [List.find?, hx, hy]
      | true =>
        exact absurd ((beq_iff_eq.mp hy).trans (beq_iff_eq.mp hx).symm) hyx
  | trans h₁ h₂ ih₁ ih₂ =>
    intro hn n
    have hn₂ := ((h₁.map Entry.name).nodup_iff).mp hn
    exact (ih₁ hn n).trans (ih₂ hn₂ n)

/-- C8: registration order is irrelevant: running any permutation of the
four registration calls from the empty registry succeeds, and the resulting
registry agrees with the source-order registry as a name-to-function map. -/
theorem c8_registration_order_irrelevant (l : List (String × FnPtr))
    (h : l.Perm moduleBindings) :
    ∃ reg, runRegistrations l [] = .ok reg ∧
      ∀ n, lookupExport reg n = lookupExport moduleRegistry n := by
  have hnodup : (l.map Prod.fst).Nodup :=
    ((h.map Prod.fst).nodup_iff).mpr (by decide)
  have hrun := runRegistrations_ok_of_nodup l [] hnodup (by simp)
  refine ⟨l.map fun p => ⟨p.1, p.2⟩, by simpa using hrun, ?_⟩
  intro n
  have hperm : (l.map fun p => (⟨p.1, p.2⟩ : Entry)).Perm moduleRegistry :=
    h.map fun p => (⟨p.1, p.2⟩ : Entry)
  have hmn : ((l.map fun p => (⟨p.1, p.2⟩ : Entry)).map Entry.name).Nodup := by
    simpa [List.map_map, Function.comp] using hnodup
  unfold lookupExport
  rw [find?_eq_of_perm hperm hmn n]

/-- Witness for C8 at the reversed registration order. -/
theorem c8_registration_order_irrelevant_witness :
    moduleBindings.reverse.Perm moduleBindings ∧
    ∃ reg, runRegistrations moduleBindings.reverse [] = .ok reg ∧
      ∀ n, lookupExport reg n = lookupExport moduleRegistry n :=
  ⟨List.reverse_perm moduleBindings,
   c8_registration_order_irrelevant _ (List.reverse_perm moduleBindings)⟩

/-- C9: re-running the registration pass on the already-populated registry
fails fast with a defect signal at the first (duplicate) registration; it
never yields a registry, so it cannot yield one different from the first
run's result and never silently re-registers entries. -/
theorem c9_rerun_fails_fast :
    initPass moduleRegistry = .error (.duplicateName "utils_dummy_method") ∧
    ∀ reg', initPass moduleRegistry ≠ .ok reg' := by
  refine ⟨rfl, ?_⟩
  intro reg' hc
  have h1 : initPass moduleRegistry =
      Except.error (RegError.duplicateName "utils_dummy_method") := rfl
  rw [h1] at hc
  exact Except.noConfusion hc

/-- The registration pass, run from the empty registry, produced the
registry `reg`. -/
def InitRun (reg : List Entry) : Prop := initPass [] = Except.ok reg

/-- C10: the registration pass is deterministic: it takes no input, so any
two runs from the empty registry produce identical registries. -/
theorem c10_registration_deterministic (r₁ r₂ : List Entry)
    (h₁ : InitRun r₁) (h₂ : InitRun r₂) : r₁ = r₂ := by
  unfold InitRun at h₁ h₂
  rw [h₁] at h₂
  injection h₂

/-- Witness for C10 at the registry the pass actually produces. -/
theorem c10_registration_deterministic_witness :
    InitRun moduleRegistry ∧ moduleRegistry = moduleRegistry :=
  ⟨rfl, c10_registration_deterministic _ _ rfl rfl⟩
